import Mathlib

/-!
Verification of the text & identifier validation library of the repository
(hashtag extraction, identifier and slug grammar validation, etag
generation, and the structural nowhere-nil checker).  The implementations
themselves are absent from the supplied sources; only their test contracts
are present (the hashtag round-trip table, the grammar test cases, the
nowhere-nil test cases).  The definitions below are therefore modelled from
the specification, and are checked against the in-repo contract tables
wherever those exist.
-/

namespace Mattermost

/-! ## Character classes -/

/-- Modelled from the spec: the letter class used by the hashtag extractor,
spec 4.3 — ASCII letters "plus Unicode letters such as ö, ü".  Full Unicode
letter tables are not reproduced; the class is modelled over the Basic
Latin and Latin-1 ranges, which cover every character the contract table
exercises (the Latin-1 letters are 0xC0–0xFF minus the two operators
0xD7 and 0xF7). -/
def isSpecLetter (c : Char) : Bool :=
  let n := c.toNat
  (0x41 ≤ n && n ≤ 0x5A) || (0x61 ≤ n && n ≤ 0x7A) ||
    (0xC0 ≤ n && n ≤ 0xFF && !(n == 0xD7) && !(n == 0xF7))

/-- ASCII digit. -/
def isAsciiDigit (c : Char) : Bool :=
  let n := c.toNat
  0x30 ≤ n && n ≤ 0x39

/-- Alphanumeric character (letter or digit), the class that blocks a
hashtag start when it immediately precedes the pound sign (spec 4.3 rule 2). -/
def isAlnumChar (c : Char) : Bool :=
  isSpecLetter c || isAsciiDigit c

/-- Modelled from the spec: a hashtag body character, spec 4.3 rule 4 —
the class A-Za-z0-9_- plus Unicode letters. -/
def isTagBodyChar (c : Char) : Bool :=
  isAlnumChar c || c == '_' || c == '-'

/-! ## Hashtag extraction -/

/-- Modelled from the spec: rejection rule of spec 4.3 rule 5 stated
verbatim — a candidate body is rejected iff it has fewer than 2
characters, or its first character is a digit, or it consists entirely of
digits.  Kept for comparison with the contract table; the extractor itself
uses validBody below. -/
def specValidBody (b : List Char) : Bool :=
  !(decide (b.length < 2) || isAsciiDigit (b.headD ' ') || b.all isAsciiDigit)

/-- Modelled from the spec: acceptance rule for a hashtag body.  The
spec's literal rule (specValidBody) only excludes digit-initial bodies, but
the in-repo contract table maps "#-test" to the empty string, which forces
the stronger condition that the body start with a letter: a body is
accepted iff it has at least 2 characters and its first character is a
letter. -/
def validBody (b : List Char) : Bool :=
  decide (2 ≤ b.length) && isSpecLetter (b.headD ' ')

/-- Strip the trailing run of non-alphanumeric characters (separators
- and _) from a consumed body.  Forced by the in-repo contract table
("-#minus-" maps to "#minus", "_#under_" maps to "#under"): trailing
punctuation, separators included, is stripped from a tag. -/
def stripEnd (b : List Char) : List Char :=
  (b.reverse.dropWhile (fun c => !isAlnumChar c)).reverse

/-- Scanner state: `cur` is the body consumed so far when inside a
candidate, `prevAlnum` records whether the previously scanned character is
alphanumeric, `acc` holds the accepted bodies in left-to-right order. -/
structure ScanState where
  cur : Option (List Char)
  prevAlnum : Bool
  acc : List (List Char)
deriving Repr

/-- Close a candidate body: strip trailing separators, and append the body
to the accumulator when it is accepted. -/
def finishBody (acc : List (List Char)) (body : List Char) : List (List Char) :=
  let b := stripEnd body
  if validBody b then acc ++ [b] else acc

/-- Whether the character immediately before the scanner's position, after
a candidate body, is alphanumeric (the body's last character; a lone
collapsed pound sign when the body is empty). -/
def afterBodyAlnum (body : List Char) : Bool :=
  match body.getLast? with
  | some c => isAlnumChar c
  | none => false

/-- One scanner step outside of a candidate: a pound sign not immediately
preceded by an alphanumeric character opens a candidate (spec 4.3 rule 2);
any other character just updates the predecessor class. -/
def stepOutside (st : ScanState) (c : Char) : ScanState :=
  if c == '#' && !st.prevAlnum then ⟨some [], st.prevAlnum, st.acc⟩
  else ⟨none, isAlnumChar c, st.acc⟩

/-- One scanner step.  Inside a candidate: further pound signs before any
body character are collapsed (spec 4.3 rule 3); a body character extends
the body (rule 4); any other character closes the candidate and is then
re-examined as an ordinary character. -/
def step : ScanState → Char → ScanState
  | ⟨none, p, acc⟩, c => stepOutside ⟨none, p, acc⟩ c
  | ⟨some body, p, acc⟩, c =>
    if body.isEmpty && c == '#' then ⟨some body, p, acc⟩
    else if isTagBodyChar c then ⟨some (body ++ [c]), p, acc⟩
    else stepOutside ⟨none, afterBodyAlnum body, finishBody acc body⟩ c

/-- Close the candidate still open at the end of the input, if any. -/
def finishScan : ScanState → List (List Char)
  | ⟨some body, _, acc⟩ => finishBody acc body
  | ⟨none, _, acc⟩ => acc

/-- Run the scanner over a character list from a given state. -/
def scanFrom (st : ScanState) (cs : List Char) : List (List Char) :=
  finishScan (cs.foldl step st)

/-- The accepted hashtag bodies of a character list, in left-to-right
order. -/
def runScan (cs : List Char) : List (List Char) :=
  scanFrom ⟨none, false, []⟩ cs

/-- Space-join the accepted bodies, each re-prefixed with a single pound
sign (spec 4.3 rules 6 and 7). -/
def joinTags : List (List Char) → List Char
  | [] => []
  | [b] => '#' :: b
  | b :: b' :: bs => '#' :: b ++ ' ' :: joinTags (b' :: bs)

/-- Modelled from the spec: ParseHashtags (spec 4.3) — scans the text
character by character and returns the normalized space-joined string of
valid hashtags together with the ordered list of matches. -/
def ParseHashtags (s : String) : String × List String :=
  (String.mk (joinTags (runScan s.data)),
   (runScan s.data).map (fun b => String.mk ('#' :: b)))

/-- The hashtag contract table, transcribed from the test file in the
sources (input, expected normalized output), in source order. -/
def hashtagsTable : List (String × String) :=
  [("#test", "#test"),
   ("test", ""),
   ("#test123", "#test123"),
   ("#123test123", ""),
   ("#test-test", "#test-test"),
   ("#test?", "#test"),
   ("hi #there", "#there"),
   ("#bug #idea", "#bug #idea"),
   ("#bug or #gif!", "#bug #gif"),
   ("#hüllo", "#hüllo"),
   ("#?test", ""),
   ("#-test", ""),
   ("#yo_yo", "#yo_yo"),
   ("(#brakets)", "#brakets"),
   (")#stekarb(", "#stekarb"),
   ("<#less_than<", "#less_than"),
   (">#greater_than>", "#greater_than"),
   ("-#minus-", "#minus"),
   ("_#under_", "#under"),
   ("+#plus+", "#plus"),
   ("=#equals=", "#equals"),
   ("%#pct%", "#pct"),
   ("&#and&", "#and"),
   ("^#hat^", "#hat"),
   ("##brown#", "#brown"),
   ("*#star*", "#star"),
   ("|#pipe|", "#pipe"),
   (":#colon:", "#colon"),
   (";#semi;", "#semi"),
   ("#Mötley;", "#Mötley"),
   (".#period.", "#period"),
   ("¿#upside¿", "#upside"),
   ("\"#quote\"", "#quote"),
   ("/#slash/", "#slash"),
   ("\\#backslash\\", "#backslash"),
   ("#a", ""),
   ("#1", ""),
   ("foo#bar", "")]

/-! ## Slug grammar validation -/

/-- A slug character: the restricted class a-z0-9 plus the separators
- and _ (spec 4.2). -/
def isSlugChar (c : Char) : Bool :=
  let n := c.toNat
  (0x61 ≤ n && n ≤ 0x7A) || (0x30 ≤ n && n ≤ 0x39) || c == '-' || c == '_'

/-- A separator character: - or _. -/
def isSep (c : Char) : Bool :=
  c == '-' || c == '_'

/-- Modelled from the spec: IsValidAlphaNum (spec 4.2, strict grammar) —
true iff the string is non-empty, consists only of a-z0-9-_, does not
start or end with a separator, and does not consist solely of separators
(the last conjunct is redundant given the first two but mirrors the
spec's wording). -/
def IsValidAlphaNum (s : String) : Bool :=
  match s.data with
  | [] => false
  | c :: cs =>
    (c :: cs).all isSlugChar && !isSep c && !isSep (cs.getLastD c)
      && !(c :: cs).all isSep

/-- Modelled from the spec: IsValidAlphaNumHyphenUnderscore (spec 4.2) —
with strictFormat true it applies the strict boundary grammar (which, as
modelled, already admits mixed interior separator runs such as
"test_-name"); with strictFormat false the boundary restriction is lifted
and only the character class a-z0-9-_ is enforced. -/
def IsValidAlphaNumHyphenUnderscore (s : String) (strictFormat : Bool) : Bool :=
  if strictFormat then IsValidAlphaNum s
  else s.data.all isSlugChar

/-! ## Identifier generation and validation -/

/-- Modelled from the spec: the generator's alphabet (spec 3, 4.1).  The
spec fixes no concrete alphabet beyond it being a fixed set of
non-punctuation characters; it is modelled as the 36 lowercase
alphanumerics. -/
def idAlphabet : List Char :=
  "abcdefghijklmnopqrstuvwxyz0123456789".data

/-- Modelled from the spec: IsValidId / IsValidIdentifier (spec 4.2) —
true iff the length is exactly 26 and every character lies in the
generator's alphabet. -/
def IsValidId (s : String) : Bool :=
  s.length == 26 && s.data.all (fun c => decide (c ∈ idAlphabet))

/-- Modelled from the spec: NewId / NewIdentifier (spec 4.1) — produces a
26-character identifier over the generator's alphabet.  The consumed
entropy is modelled as an explicit natural-number seed, making the
generator a deterministic function of the entropy it draws. -/
def NewId (seed : Nat) : String :=
  String.mk ((List.range 26).map (fun i => idAlphabet.getD (seed / 36 ^ i % 36) 'a'))

/-! ## Etag generation -/

/-- Modelled from the spec: Etag (spec 4.4) — a deterministic non-empty
token derived from the name and the numeric version parameter.  The spec
fixes no concrete format; it is modelled as a base marker joined with the
two inputs by dots. -/
def Etag (name : String) (version : Int) : String :=
  String.mk ('e' :: '.' :: (name.data ++ '.' :: (toString version).data))

/-! ## Structural nowhere-nil checker -/

mutual
/-- Modelled from the spec: the universe of values the nowhere-nil checker
inspects (spec 4.5) — the untyped nil, primitive scalars, nil and non-nil
pointers, nil and non-nil slices and maps (with their contents, which the
checker deliberately ignores), and structs whose fields carry an
exported flag. -/
inductive GoValue : Type where
  | vnil : GoValue
  | str : String → GoValue
  | intV : Int → GoValue
  | boolV : Bool → GoValue
  | ptrNil : GoValue
  | ptr : GoValue → GoValue
  | sliceNil : GoValue
  | slice : GoList → GoValue
  | mapNil : GoValue
  | mapV : GoPairs → GoValue
  | strct : GoFields → GoValue

/-- A list of slice elements. -/
inductive GoList : Type where
  | nil : GoList
  | cons : GoValue → GoList → GoList

/-- A list of map entries (key, value). -/
inductive GoPairs : Type where
  | nil : GoPairs
  | cons : GoValue → GoValue → GoPairs → GoPairs

/-- A list of struct fields: exported flag and field value. -/
inductive GoFields : Type where
  | nil : GoFields
  | cons : Bool → GoValue → GoFields → GoFields
end

mutual
/-- Modelled from the spec: IsNowhereNil / checkNowhereNil (spec 4.5) —
false on the nil value, a nil pointer and a nil map; recurses through
non-nil pointers; true on any slice (a nil slice is observably an empty
slice) and on any non-nil map (map values are not inspected); recurses
over the exported fields of a struct; true on every primitive scalar. -/
def checkNowhereNil : GoValue → Bool
  | .vnil => false
  | .str _ => true
  | .intV _ => true
  | .boolV _ => true
  | .ptrNil => false
  | .ptr v => checkNowhereNil v
  | .sliceNil => true
  | .slice _ => true
  | .mapNil => false
  | .mapV _ => true
  | .strct fs => checkFields fs

/-- Check the fields of a struct: unexported fields are skipped, exported
fields are checked recursively. -/
def checkFields : GoFields → Bool
  | .nil => true
  | .cons exported v fs =>
    (if exported then checkNowhereNil v else true) && checkFields fs
end

mutual
/-- Fuel-bounded evaluator for the nowhere-nil check: one unit of fuel is
consumed per recursion step, and exhaustion (the modelled analogue of a
runtime fault of the recursive traversal) yields none. -/
def checkFuel : Nat → GoValue → Option Bool
  | 0, _ => none
  | _ + 1, .vnil => some false
  | _ + 1, .str _ => some true
  | _ + 1, .intV _ => some true
  | _ + 1, .boolV _ => some true
  | _ + 1, .ptrNil => some false
  | n + 1, .ptr v => checkFuel n v
  | _ + 1, .sliceNil => some true
  | _ + 1, .slice _ => some true
  | _ + 1, .mapNil => some false
  | _ + 1, .mapV _ => some true
  | n + 1, .strct fs => checkFieldsFuel n fs

/-- Fuel-bounded evaluator for the struct-field traversal. -/
def checkFieldsFuel : Nat → GoFields → Option Bool
  | 0, _ => none
  | _ + 1, .nil => some true
  | n + 1, .cons exported v fs =>
    match (if exported then checkFuel n v else some true), checkFieldsFuel n fs with
    | some b, some c => some (b && c)
    | _, _ => none
end

/-! ## Scanner lemmas -/

/-- A body emitted by the scanner: accepted, made of body characters, and
ending in an alphanumeric character. -/
def GoodBody (b : List Char) : Prop :=
  validBody b = true ∧ b.all isTagBodyChar = true ∧ afterBodyAlnum b = true

/-- Scanner state invariant: accumulated bodies are good, and the open
candidate body, if any, is made of body characters. -/
def ScanInv (st : ScanState) : Prop :=
  (∀ b ∈ st.acc, GoodBody b) ∧
    ∀ body, st.cur = some body → body.all isTagBodyChar = true

theorem head_of_dropWhile_not (p : Char → Bool) :
    ∀ (l : List Char) (c : Char) (cs : List Char),
      l.dropWhile p = c :: cs → p c = false := by
  intro l
  induction l with
  | nil => intro c cs h; simp [List.dropWhile] at h
  | cons a l ih =>
    intro c cs h
    rw [List.dropWhile_cons] at h
    by_cases hp : p a = true
    · rw [if_pos hp] at h
      exact ih c cs h
    · rw [if_neg hp] at h
      cases h
      exact Bool.not_eq_true _ ▸ hp

theorem stripEnd_all (b : List Char) (h : b.all isTagBodyChar = true) :
    (stripEnd b).all isTagBodyChar = true := by
  rw [List.all_eq_true] at h ⊢
  intro c hc
  apply h
  have h1 : c ∈ b.reverse.dropWhile fun c => !isAlnumChar c := by
    simpa [stripEnd] using hc
  have h2 : c ∈ b.reverse := (List.dropWhile_sublist _).subset h1
  simpa using h2

theorem stripEnd_ends_alnum (b : List Char) (h : stripEnd b ≠ []) :
    afterBodyAlnum (stripEnd b) = true := by
  unfold afterBodyAlnum
  rcases hd : b.reverse.dropWhile (fun c => !isAlnumChar c) with _ | ⟨c, cs⟩
  · exact absurd (by simp [stripEnd, hd]) h
  · have hc : (!isAlnumChar c) = false := head_of_dropWhile_not _ _ _ _ hd
    have hlast : (stripEnd b).getLast? = some c := by
      rw [stripEnd, hd, List.getLast?_reverse]
      rfl
    rw [hlast]
    simpa using hc

theorem validBody_ne_nil {b : List Char} (h : validBody b = true) : b ≠ [] := by
  intro hnil
  subst hnil
  simp [validBody] at h

theorem stripEnd_fixed (b : List Char) (h : afterBodyAlnum b = true) :
    stripEnd b = b := by
  unfold afterBodyAlnum at h
  rcases hl : b.getLast? with _ | c
  · rw [hl] at h; simp at h
  · rw [hl] at h
    have hrev : b.reverse.head? = some c := by rw [List.head?_reverse, hl]
    rcases hb : b.reverse with _ | ⟨c', cs⟩
    · rw [hb] at hrev; simp at hrev
    · rw [hb] at hrev
      have hcc : c' = c := by simpa using hrev
      subst hcc
      have : (!isAlnumChar c') = false := by simpa using h
      calc stripEnd b = ((c' :: cs).dropWhile fun c => !isAlnumChar c).reverse := by
            rw [stripEnd, hb]
        _ = (c' :: cs).reverse := by rw [List.dropWhile_cons, if_neg (by simp [this])]
        _ = b := by rw [← hb, List.reverse_reverse]

theorem finishBody_good (acc : List (List Char)) (body : List Char)
    (hacc : ∀ b ∈ acc, GoodBody b) (hbody : body.all isTagBodyChar = true) :
    ∀ b ∈ finishBody acc body, GoodBody b := by
  intro b hb
  unfold finishBody at hb
  by_cases hv : validBody (stripEnd body) = true
  · rw [if_pos hv] at hb
    rcases List.mem_append.mp hb with h | h
    · exact hacc b h
    · have hbe : b = stripEnd body := by simpa using h
      subst hbe
      exact ⟨hv, stripEnd_all body hbody,
        stripEnd_ends_alnum body (validBody_ne_nil hv)⟩
  · rw [if_neg hv] at hb
    exact hacc b hb

theorem finishBody_of_good (acc : List (List Char)) (body : List Char)
    (h : GoodBody body) : finishBody acc body = acc ++ [body] := by
  unfold finishBody
  rw [stripEnd_fixed body h.2.2, if_pos h.1]

theorem scanInv_stepOutside (st : ScanState) (c : Char) (h : ScanInv st) :
    ScanInv (stepOutside st c) := by
  unfold stepOutside
  by_cases hc : (c == '#' && !st.prevAlnum) = true
  · rw [if_pos hc]
    exact ⟨h.1, by intro body hb; cases hb; rfl⟩
  · rw [if_neg hc]
    exact ⟨h.1, by intro body hb; cases hb⟩

theorem scanInv_step (st : ScanState) (c : Char) (h : ScanInv st) :
    ScanInv (step st c) := by
  obtain ⟨cur, prev, acc⟩ := st
  rcases cur with _ | body
  · exact scanInv_stepOutside _ c h
  · have hbody : body.all isTagBodyChar = true := h.2 body rfl
    simp only [step]
    by_cases h1 : (body.isEmpty && c == '#') = true
    · rw [if_pos h1]; exact h
    · rw [if_neg h1]
      by_cases h2 : isTagBodyChar c = true
      · rw [if_pos h2]
        refine ⟨h.1, ?_⟩
        intro b hb
        cases hb
        simp [List.all_append, hbody, h2]
      · rw [if_neg h2]
        apply scanInv_stepOutside
        refine ⟨finishBody_good acc body h.1 hbody, ?_⟩
        intro b hb
        cases hb

theorem scanInv_foldl (cs : List Char) :
    ∀ st : ScanState, ScanInv st → ScanInv (cs.foldl step st) := by
  induction cs with
  | nil => intro st h; exact h
  | cons c cs ih =>
    intro st h
    exact ih (step st c) (scanInv_step st c h)

theorem scanFrom_good (st : ScanState) (cs : List Char) (h : ScanInv st) :
    ∀ b ∈ scanFrom st cs, GoodBody b := by
  have hinv := scanInv_foldl cs st h
  rcases hfold : List.foldl step st cs with ⟨cur, prev, acc⟩
  rw [hfold] at hinv
  unfold scanFrom
  rw [hfold]
  rcases cur with _ | body
  · simpa [finishScan] using hinv.1
  · exact finishBody_good acc body hinv.1 (hinv.2 body rfl)

theorem runScan_good (cs : List Char) : ∀ b ∈ runScan cs, GoodBody b := by
  apply scanFrom_good
  constructor
  · intro b hb; cases hb
  · intro b hb; cases hb

theorem foldl_step_body (b : List Char) :
    ∀ (pre : List Char) (p : Bool) (acc : List (List Char)),
      b.all isTagBodyChar = true →
      List.foldl step ⟨some pre, p, acc⟩ b = ⟨some (pre ++ b), p, acc⟩ := by
  induction b with
  | nil => intro pre p acc _; simp
  | cons c cs ih =>
    intro pre p acc hall
    rw [List.all_cons, Bool.and_eq_true] at hall
    have hc : isTagBodyChar c = true := hall.1
    have hnp : (c == '#') = false := by
      rcases Bool.eq_false_or_eq_true (c == '#') with ht | hf
      · exfalso
        have : c = '#' := by simpa using ht
        subst this
        exact absurd hc (by decide)
      · exact hf
    have hstep : step ⟨some pre, p, acc⟩ c = ⟨some (pre ++ [c]), p, acc⟩ := by
      simp [step, hnp, hc]
    rw [List.foldl_cons, hstep, ih (pre ++ [c]) p acc hall.2, List.append_assoc]
    rfl

theorem validBody_not_isEmpty {b : List Char} (h : validBody b = true) :
    b.isEmpty = false := by
  rcases b with _ | ⟨c, cs⟩
  · simp [validBody] at h
  · rfl

theorem foldl_tag (b : List Char) (acc : List (List Char)) (hgood : GoodBody b) :
    List.foldl step ⟨none, false, acc⟩ ('#' :: b) = ⟨some b, false, acc⟩ := by
  rw [List.foldl_cons]
  have h1 : step ⟨none, false, acc⟩ '#' = ⟨some [], false, acc⟩ := by
    simp [step, stepOutside]
  rw [h1]
  have := foldl_step_body b [] false acc hgood.2.1
  simpa using this

theorem scanFrom_joinTags :
    ∀ (bs : List (List Char)) (acc : List (List Char)),
      (∀ b ∈ bs, GoodBody b) →
      scanFrom ⟨none, false, acc⟩ (joinTags bs) = acc ++ bs := by
  intro bs
  induction bs with
  | nil =>
    intro acc _
    simp [joinTags, scanFrom, finishScan]
  | cons b tail ih =>
    intro acc hgood
    have hb : GoodBody b := hgood b (by simp)
    rcases tail with _ | ⟨b', bs'⟩
    · show scanFrom ⟨none, false, acc⟩ ('#' :: b) = acc ++ [b]
      unfold scanFrom
      rw [foldl_tag b acc hb]
      show finishBody acc b = acc ++ [b]
      exact finishBody_of_good acc b hb
    · show scanFrom ⟨none, false, acc⟩ ('#' :: b ++ ' ' :: joinTags (b' :: bs')) = _
      unfold scanFrom
      rw [show ('#' :: b ++ ' ' :: joinTags (b' :: bs'))
            = ('#' :: b) ++ (' ' :: joinTags (b' :: bs')) by simp,
        List.foldl_append, foldl_tag b acc hb, List.foldl_cons]
      have hspace : step ⟨some b, false, acc⟩ ' ' = ⟨none, false, acc ++ [b]⟩ := by
        simp only [step, validBody_not_isEmpty hb.1, Bool.false_and, Bool.false_eq_true,
          if_false]
        rw [if_neg (by decide)]
        rw [finishBody_of_good acc b hb]
        have hsp : isAlnumChar ' ' = false := by decide
        simp [stepOutside, hsp]
      rw [hspace]
      have hrest := ih (acc ++ [b]) (fun x hx => hgood x (by simp [hx]))
      unfold scanFrom at hrest
      rw [hrest]
      simp

theorem runScan_joinTags (bs : List (List Char)) (h : ∀ b ∈ bs, GoodBody b) :
    runScan (joinTags bs) = bs := by
  have := scanFrom_joinTags bs [] h
  simpa [runScan] using this

/-! ## Nowhere-nil lemmas -/

theorem goValue_sizeOf_pos (v : GoValue) : 1 ≤ sizeOf v := by
  cases v <;> simp_arith

theorem goFields_sizeOf_pos (fs : GoFields) : 1 ≤ sizeOf fs := by
  cases fs <;> simp_arith

theorem checkFuel_sound :
    ∀ n : Nat,
      (∀ v : GoValue, sizeOf v ≤ n → checkFuel n v = some (checkNowhereNil v)) ∧
      (∀ fs : GoFields, sizeOf fs ≤ n → checkFieldsFuel n fs = some (checkFields fs)) := by
  intro n
  induction n with
  | zero =>
    constructor
    · intro v hv
      exact absurd hv (by have := goValue_sizeOf_pos v; omega)
    · intro fs hfs
      exact absurd hfs (by have := goFields_sizeOf_pos fs; omega)
  | succ n ih =>
    constructor
    · intro v hv
      cases v with
      | ptr w =>
        have hsz : sizeOf (GoValue.ptr w) = 1 + sizeOf w := by simp_arith
        have hw : sizeOf w ≤ n := by omega
        show checkFuel n w = some (checkNowhereNil w)
        exact ih.1 w hw
      | strct fs =>
        have hsz : sizeOf (GoValue.strct fs) = 1 + sizeOf fs := by simp_arith
        have hfs : sizeOf fs ≤ n := by omega
        show checkFieldsFuel n fs = some (checkFields fs)
        exact ih.2 fs hfs
      | vnil => rfl
      | str s => rfl
      | intV k => rfl
      | boolV b => rfl
      | ptrNil => rfl
      | sliceNil => rfl
      | slice el => rfl
      | mapNil => rfl
      | mapV en => rfl
    · intro fs hfs
      cases fs with
      | nil => rfl
      | cons exported v rest =>
        have hsz : sizeOf (GoFields.cons exported v rest)
            = 1 + sizeOf exported + sizeOf v + sizeOf rest := by simp_arith
        have hv : sizeOf v ≤ n := by omega
        have hrest : sizeOf rest ≤ n := by omega
        have h1 := ih.1 v hv
        have h2 := ih.2 rest hrest
        cases exported with
        | true =>
          show (match checkFuel n v, checkFieldsFuel n rest with
                | some b, some c => some (b && c)
                | _, _ => none)
              = some (checkNowhereNil v && checkFields rest)
          rw [h1, h2]
        | false =>
          show (match some true, checkFieldsFuel n rest with
                | some b, some c => some (b && c)
                | _, _ => none)
              = some (true && checkFields rest)
          rw [h2]

/-! ## Character class lemmas -/

theorem letter_not_digit (c : Char) (h : isSpecLetter c = true) :
    isAsciiDigit c = false := by
  by_contra hne
  have hd : isAsciiDigit c = true := by
    rcases Bool.eq_false_or_eq_true (isAsciiDigit c) with ht | hf
    · exact ht
    · exact absurd hf hne
  unfold isSpecLetter at h
  unfold isAsciiDigit at hd
  simp only [Bool.or_eq_true, Bool.and_eq_true, Bool.not_eq_true',
    decide_eq_true_eq, beq_eq_false_iff_ne, ne_eq] at h hd
  omega

theorem validBody_imp_specValidBody (b : List Char) (h : validBody b = true) :
    specValidBody b = true := by
  unfold validBody at h
  rw [Bool.and_eq_true, decide_eq_true_eq] at h
  obtain ⟨hlen, hhead⟩ := h
  rcases b with _ | ⟨c, cs⟩
  · simp at hlen
  · have hc : isSpecLetter c = true := by simpa using hhead
    have hd : isAsciiDigit c = false := letter_not_digit c hc
    have hlen1 : 1 ≤ cs.length := by
      have : 2 ≤ cs.length + 1 := by simpa using hlen
      omega
    unfold specValidBody
    simp [hd, hlen1]

/-! ## Identifier lemmas -/

theorem idAlphabet_getD_mem (k : Nat) :
    idAlphabet.getD (k % 36) 'a' ∈ idAlphabet := by
  have h36 : k % 36 < 36 := Nat.mod_lt _ (by omega)
  have hall : ∀ m, m < 36 → idAlphabet.getD m 'a' ∈ idAlphabet := by decide
  exact hall _ h36

/-! ## Claim theorems -/

/-- C1: ParseHashtags returns, as its normalized output string, exactly the
hashtags of the input accepted by the scanner, in left-to-right order,
space-joined and each re-prefixed with a single pound sign; every emitted
body is accepted and made of body characters; and on the contract inputs
the outputs are: "#test123" to "#test123", "#123test123" to "",
"##brown#" to "#brown" (a leading run of pound signs collapses to one),
"foo#bar" to "" (a pound sign immediately preceded by an alphanumeric
character does not start a tag), "#bug or #gif!" to "#bug #gif" (non-tag
words dropped, trailing punctuation stripped). -/
theorem C1_parseHashtags_normalized_output :
    (∀ s : String,
        (ParseHashtags s).1 = String.mk (joinTags (runScan s.data)) ∧
        (ParseHashtags s).2 = (runScan s.data).map (fun b => String.mk ('#' :: b)) ∧
        (runScan s.data).all (fun b => validBody b && b.all isTagBodyChar) = true) ∧
    (ParseHashtags "#test123").1 = "#test123" ∧
    (ParseHashtags "#123test123").1 = "" ∧
    (ParseHashtags "##brown#").1 = "#brown" ∧
    (ParseHashtags "foo#bar").1 = "" ∧
    (ParseHashtags "#bug or #gif!").1 = "#bug #gif" := by
  refine ⟨?_, by decide, by decide, by decide, by decide, by decide⟩
  intro s
  refine ⟨rfl, rfl, ?_⟩
  rw [List.all_eq_true]
  intro b hb
  have h := runScan_good s.data b hb
  simp [h.1, h.2.1]

/-- C8: ParseHashtags is idempotent on its own normalized output:
re-parsing the normalized string returned by the extractor yields that
same normalized string again. -/
theorem C8_parseHashtags_idempotent (x : String) :
    (ParseHashtags (ParseHashtags x).1).1 = (ParseHashtags x).1 := by
  have hdata : ((ParseHashtags x).1).data = joinTags (runScan x.data) := rfl
  show String.mk (joinTags (runScan ((ParseHashtags x).1).data)) = _
  rw [hdata, runScan_joinTags _ (runScan_good x.data)]
  rfl

/-- C6 counterexample: on the input "#-test" the scanner's candidate body
is "-test", which has at least 2 characters, does not start with a digit
and is not all digits — so the claim's rejection rule would emit it — yet
the contract table of the test sources, and the extractor, map "#-test"
to the empty string. -/
theorem C6_counterexample_dash_body :
    specValidBody "-test".data = true ∧
    ("#-test", "") ∈ hashtagsTable ∧
    (ParseHashtags "#-test").1 = "" ∧
    "#-test".data.tail.takeWhile isTagBodyChar = "-test".data := by
  refine ⟨by decide, by decide, by decide, by decide⟩

/-- C6 amended: the candidate's body is the longest run of characters in
A-Za-z0-9_- plus letters after the collapsed pound sign; after the
trailing run of separators is stripped, the candidate is rejected exactly
when the remaining body has fewer than 2 characters or its first character
is not a letter.  This rule strictly strengthens the spec's literal rule
(acceptance still implies at least 2 characters, a non-digit start and not
all digits), and with it the extractor reproduces the full contract
table. -/
theorem C6_amended_rejection_rule :
    (∀ b : List Char, validBody b = true → specValidBody b = true) ∧
    (∀ b : List Char,
        validBody b = (decide (2 ≤ b.length) && isSpecLetter (b.headD ' '))) ∧
    (∀ acc body, finishBody acc body
        = if validBody (stripEnd body) = true then acc ++ [stripEnd body] else acc) ∧
    hashtagsTable.all (fun p => (ParseHashtags p.1).1 == p.2) = true := by
  exact ⟨validBody_imp_specValidBody, fun b => rfl, fun acc body => rfl, by decide⟩

/-- Witness for the C6 amended rule at a concrete body. -/
theorem C6_amended_rejection_rule_witness : specValidBody "ab".data = true :=
  C6_amended_rejection_rule.1 "ab".data (by decide)

/-- C2: IsValidId holds exactly on strings of length 26 whose characters
all lie in the generator's alphabet; the empty string, any string of
another length, and any 26-character string containing an out-of-alphabet
character such as a brace are rejected. -/
theorem C2_isValidId_characterization :
    (∀ s : String, IsValidId s = true ↔
        (s.length = 26 ∧ ∀ c ∈ s.data, c ∈ idAlphabet)) ∧
    (∀ s : String, s.length ≠ 26 → IsValidId s = false) ∧
    (∀ (s : String) (c : Char), c ∈ s.data → c ∉ idAlphabet → IsValidId s = false) ∧
    IsValidId "" = false ∧
    IsValidId "junk" = false ∧
    IsValidId "qwertyuiop1234567890asdfg\x7b" = false ∧
    IsValidId (NewId 0 ++ "\x7d") = false := by
  refine ⟨?_, ?_, ?_, by decide, by decide, by decide, by decide⟩
  · intro s
    simp [IsValidId, List.all_eq_true]
  · intro s h
    have : (s.length == 26) = false := by
      simpa using h
    simp [IsValidId, this]
  · intro s c hc hnc
    have : s.data.all (fun c => decide (c ∈ idAlphabet)) = false := by
      rcases Bool.eq_false_or_eq_true (s.data.all fun c => decide (c ∈ idAlphabet))
        with ht | hf
      · rw [List.all_eq_true] at ht
        exact absurd (by simpa using ht c hc) hnc
      · exact hf
    simp [IsValidId, this]

/-- Witness for C2 at concrete inputs: a short string is rejected by the
length rule, and a 26-character string with an out-of-alphabet character
is rejected by the alphabet rule. -/
theorem C2_isValidId_characterization_witness :
    IsValidId "abc" = false ∧ IsValidId "qwertyuiop1234567890asdfg;" = false :=
  ⟨C2_isValidId_characterization.2.1 "abc" (by decide),
   C2_isValidId_characterization.2.2.1 "qwertyuiop1234567890asdfg;" ';'
     (by decide) (by decide)⟩

/-- C7: every identifier the generator produces — for every draw of
entropy — has length at most 26 and satisfies the validity predicate. -/
theorem C7_newId_always_valid (seed : Nat) :
    (NewId seed).length ≤ 26 ∧ IsValidId (NewId seed) = true := by
  have hdata : (NewId seed).data
      = (List.range 26).map (fun i => idAlphabet.getD (seed / 36 ^ i % 36) 'a') := rfl
  have hlen : (NewId seed).length = 26 := by
    simp [String.length, hdata]
  refine ⟨by omega, ?_⟩
  unfold IsValidId
  rw [hlen]
  simp only [beq_self_eq_true, Bool.true_and]
  rw [List.all_eq_true]
  intro c hc
  rw [hdata, List.mem_map] at hc
  obtain ⟨i, _, hceq⟩ := hc
  subst hceq
  simpa using idAlphabet_getD_mem (seed / 36 ^ i)

/-- C4: with strictFormat false the validator accepts exactly the strings
whose characters all lie in a-z0-9-_ — separator-only strings and strings
with boundary separators included — and rejects any string containing a
character outside that class; with strictFormat true the strict boundary
grammar applies: "-" is rejected while "test_-name" is accepted. -/
theorem C4_isValidAlphaNumHyphenUnderscore_modes :
    (∀ s : String, IsValidAlphaNumHyphenUnderscore s false = true ↔
        ∀ c ∈ s.data, isSlugChar c = true) ∧
    IsValidAlphaNumHyphenUnderscore "-" false = true ∧
    IsValidAlphaNumHyphenUnderscore "_" false = true ∧
    IsValidAlphaNumHyphenUnderscore "test--" false = true ∧
    IsValidAlphaNumHyphenUnderscore "." false = false ∧
    IsValidAlphaNumHyphenUnderscore "test," false = false ∧
    IsValidAlphaNumHyphenUnderscore "test:name" false = false ∧
    IsValidAlphaNumHyphenUnderscore "-" true = false ∧
    IsValidAlphaNumHyphenUnderscore "test_-name" true = true := by
  refine ⟨?_, by decide, by decide, by decide, by decide, by decide, by decide,
    by decide, by decide⟩
  intro s
  simp [IsValidAlphaNumHyphenUnderscore, List.all_eq_true]

/-- Witness for C4: the relaxed mode accepts "test" since all its
characters lie in the class. -/
theorem C4_isValidAlphaNumHyphenUnderscore_modes_witness :
    IsValidAlphaNumHyphenUnderscore "test" false = true :=
  (C4_isValidAlphaNumHyphenUnderscore_modes.1 "test").mpr (by decide)

/-- C5: the strict grammar accepts exactly the non-empty strings over
a-z0-9-_ that neither start nor end with a separator (and hence are not
separator-only); doubled interior separators are allowed while a separator
at either end, even in a doubled run, is rejected, as are characters
outside the class. -/
theorem C5_isValidAlphaNum_strict_grammar :
    (∀ s : String, IsValidAlphaNum s = true ↔
        (s.data ≠ [] ∧ (∀ c ∈ s.data, isSlugChar c = true) ∧
          (∀ c, s.data.head? = some c → isSep c = false) ∧
          (∀ c, s.data.getLast? = some c → isSep c = false) ∧
          ¬ ∀ c ∈ s.data, isSep c = true)) ∧
    IsValidAlphaNum "test" = true ∧
    IsValidAlphaNum "test-name" = true ∧
    IsValidAlphaNum "test--name" = true ∧
    IsValidAlphaNum "test__name" = true ∧
    IsValidAlphaNum "-" = false ∧
    IsValidAlphaNum "__" = false ∧
    IsValidAlphaNum "test-" = false ∧
    IsValidAlphaNum "test--" = false ∧
    IsValidAlphaNum "test__" = false ∧
    IsValidAlphaNum "test:name" = false := by
  refine ⟨?_, by decide, by decide, by decide, by decide, by decide, by decide,
    by decide, by decide, by decide, by decide⟩
  intro s
  rcases hs : s.data with _ | ⟨c, cs⟩
  · unfold IsValidAlphaNum
    rw [hs]
    simp
  · unfold IsValidAlphaNum
    rw [hs]
    constructor
    · intro h
      rw [Bool.and_eq_true, Bool.and_eq_true, Bool.and_eq_true] at h
      obtain ⟨⟨⟨hall, hhead⟩, hlast⟩, hsep⟩ := h
      rw [List.all_eq_true] at hall
      refine ⟨by simp, hall, ?_, ?_, ?_⟩
      · intro x hx
        rw [List.head?_cons, Option.some.injEq] at hx
        subst hx
        simpa using hhead
      · intro x hx
        rw [List.getLast?_cons, Option.some.injEq] at hx
        subst hx
        rw [← List.getLastD_eq_getLast?]
        simpa using hlast
      · intro hforall
        have hall2 : (c :: cs).all isSep = true := List.all_eq_true.mpr hforall
        rw [hall2] at hsep
        simp at hsep
    · rintro ⟨-, hall, hhead, hlast, hnot⟩
      have h1 : (c :: cs).all isSlugChar = true := List.all_eq_true.mpr hall
      have h2 : isSep c = false := hhead c (by rw [List.head?_cons])
      have h3 : isSep (cs.getLastD c) = false := by
        apply hlast
        rw [List.getLast?_cons, List.getLastD_eq_getLast?]
      have h4 : (c :: cs).all isSep = false := by
        rcases Bool.eq_false_or_eq_true ((c :: cs).all isSep) with ht | hf
        · exact absurd (List.all_eq_true.mp ht) hnot
        · exact hf
      show ((c :: cs).all isSlugChar && !isSep c && !isSep (cs.getLastD c)
          && !(c :: cs).all isSep) = true
      rw [h1, h2, h3, h4]
      rfl

/-- Witness for C5: the strict grammar accepts "test--name". -/
theorem C5_isValidAlphaNum_strict_grammar_witness :
    IsValidAlphaNum "test--name" = true := by
  refine (C5_isValidAlphaNum_strict_grammar.1 "test--name").mpr
    ⟨by decide, by decide, ?_, ?_, by decide⟩
  · intro c hc
    have h : "test--name".data.head? = some 't' := by decide
    rw [h, Option.some.injEq] at hc
    subst hc
    decide
  · intro c hc
    have h : "test--name".data.getLast? = some 'e' := by decide
    rw [h, Option.some.injEq] at hc
    subst hc
    decide

/-- C3: the nowhere-nil check on the contract shapes: false on nil, a nil
pointer, a nil map, and a struct (or a pointer to a struct) with an
exported field holding a nil pointer; true on a nil slice, an empty slice,
a slice containing nils, an empty struct, a non-nil map even when its
values include nils (map values are not inspected), and a struct whose
only nil-holding field is unexported. -/
theorem C3_checkNowhereNil_contract :
    checkNowhereNil .vnil = false ∧
    checkNowhereNil .ptrNil = false ∧
    checkNowhereNil .mapNil = false ∧
    checkNowhereNil
      (.strct (.cons true (.ptr (.str "")) (.cons true .ptrNil .nil))) = false ∧
    checkNowhereNil
      (.ptr (.strct (.cons true (.ptr (.str "")) (.cons true .ptrNil .nil)))) = false ∧
    checkNowhereNil .sliceNil = true ∧
    checkNowhereNil (.slice .nil) = true ∧
    checkNowhereNil (.slice (.cons .ptrNil (.cons .ptrNil .nil))) = true ∧
    checkNowhereNil (.strct .nil) = true ∧
    checkNowhereNil
      (.mapV (.cons (.boolV true) .ptrNil
        (.cons (.boolV false) (.ptr (.str "")) .nil))) = true ∧
    checkNowhereNil
      (.strct (.cons true (.ptr (.str "")) (.cons false .ptrNil .nil))) = true ∧
    checkNowhereNil
      (.ptr (.strct (.cons true (.ptr (.str "")) (.cons false .ptrNil .nil)))) = true ∧
    checkNowhereNil (.str "") = true ∧
    checkNowhereNil (.str "not empty!") = true ∧
    checkNowhereNil (.intV 0) = true ∧
    checkNowhereNil (.intV 1) = true ∧
    checkNowhereNil (.boolV true) = true ∧
    checkNowhereNil (.boolV false) = true ∧
    checkNowhereNil (.ptr (.str "")) = true := by
  decide

/-- C10: the nowhere-nil check is total and never faults: for every value
of the modelled universe, the fuel-bounded evaluation with fuel equal to
the value's size terminates normally with a boolean result (it never
returns the fuel-exhaustion marker, the modelled analogue of a runtime
fault) and agrees with the checker. -/
theorem C10_checkNowhereNil_total (v : GoValue) :
    checkFuel (sizeOf v) v = some (checkNowhereNil v) :=
  (checkFuel_sound (sizeOf v)).1 v le_rfl

/-- C9: Etag is a deterministic, total function whose result is always a
non-empty string: equal inputs give equal results, and the result is never
the empty string. -/
theorem C9_etag_deterministic_nonempty :
    (∀ (name : String) (version : Int), Etag name version ≠ "") ∧
    (∀ (n1 : String) (v1 : Int) (n2 : String) (v2 : Int),
        n1 = n2 → v1 = v2 → Etag n1 v1 = Etag n2 v2) := by
  constructor
  · intro name version h
    have hdat : (Etag name version).data = [] := by rw [h]
    simp [Etag] at hdat
  · intro n1 v1 n2 v2 h1 h2
    rw [h1, h2]

/-- Witness for C9 at the contract's concrete input. -/
theorem C9_etag_deterministic_nonempty_witness :
    Etag "hello" 24 ≠ "" ∧ Etag "hello" 24 = Etag "hello" 24 :=
  ⟨C9_etag_deterministic_nonempty.1 "hello" 24,
   C9_etag_deterministic_nonempty.2 "hello" 24 "hello" 24 rfl rfl⟩

end Mattermost
